import Mathlib

/-!
Verification of the two native helpers of this repository:
`mouse_block.cpp` (gesture-blocking hook) and `window_info.cpp`
(window resolution, JSON output, capture).  The C++ code is shallowly
embedded: each C function becomes an executable Lean definition over an
explicit environment record standing for the Win32 surface the code
queries (z-order, visibility, rectangles, pids, hit-testing).
-/

/-! ## mouse_block.cpp : the low-level mouse hook state machine -/

/-- A mouse event as seen by the hook callback: the message kind, whether
VK_CONTROL is held at that moment (`GetAsyncKeyState`), and the cursor
point carried in `MSLLHOOKSTRUCT`. -/
inductive MEvent where
  | rdown (ctrl : Bool) (x y : Int)
  | rup (ctrl : Bool) (x y : Int)
  | other
deriving DecidableEq, Repr

/-- A line printed by the hook callback. -/
inductive MOut where
  | down (x y : Int)
  | up (x y : Int)
deriving DecidableEq, Repr

/-- Result of one callback invocation: the new value of `g_blockingActive`,
the line printed (if any), and whether the callback returned 1
(consumed the event) rather than calling `CallNextHookEx`. -/
structure MResult where
  active : Bool
  out : Option MOut
  consumed : Bool
deriving DecidableEq, Repr

/-- The `HC_ACTION` body of `LowLevelMouseProc` in `mouse_block.cpp`:
on `WM_RBUTTONDOWN` with Ctrl held, set `g_blockingActive`, print `DOWN`
and consume; on `WM_RBUTTONUP` while a blocking session is active,
clear the flag, print `UP` and consume; otherwise pass through. -/
def mouseStep (active : Bool) : MEvent → MResult
  | .rdown ctrl x y =>
    if ctrl then ⟨true, some (.down x y), true⟩
    else ⟨active, none, false⟩
  | .rup _ x y =>
    if active then ⟨false, some (.up x y), true⟩
    else ⟨active, none, false⟩
  | .other => ⟨active, none, false⟩

/-- `LowLevelMouseProc` with its `nCode == HC_ACTION` guard
(`HC_ACTION = 0`); other codes are passed to `CallNextHookEx`. -/
def lowLevelMouseProc (nCode : Int) (active : Bool) (e : MEvent) : MResult :=
  if nCode = 0 then mouseStep active e else ⟨active, none, false⟩

/-- One step of a processed event trace: state before, the event, the
printed line, state after. -/
structure MStep where
  pre : Bool
  ev : MEvent
  out : Option MOut
  post : Bool
deriving DecidableEq, Repr

/-- The trace of callback invocations for a sequence of `HC_ACTION`
events, starting from state `s` (`g_blockingActive` starts `false`). -/
def mouseTrace (s : Bool) : List MEvent → List MStep
  | [] => []
  | e :: es =>
    let r := mouseStep s e
    ⟨s, e, r.out, r.active⟩ :: mouseTrace r.active es

/-- The lines printed while processing a sequence of events. -/
def mouseOutputs (s : Bool) (es : List MEvent) : List MOut :=
  (mouseTrace s es).filterMap (fun st => st.out)

/-- The hook state after processing a sequence of events. -/
def mouseFinal (s : Bool) : List MEvent → Bool
  | [] => s
  | e :: es => mouseFinal (mouseStep s e).active es

def isDownOut : Option MOut → Bool
  | some (.down _ _) => true
  | _ => false

def isUpOut : Option MOut → Bool
  | some (.up _ _) => true
  | _ => false

def isDownO : MOut → Bool
  | .down _ _ => true
  | .up _ _ => false

def isCtrlDown : MEvent → Bool
  | .rdown ctrl _ _ => ctrl
  | _ => false

/-- `DOWN` is printed at a step exactly when that step is an
`Inactive → Active` transition. -/
def downIffActivationB (es : List MEvent) : Bool :=
  (mouseTrace false es).all
    (fun st => isDownOut st.out == (!st.pre && st.post))

/-- No right-button-down with Ctrl held arrives while a blocking session
is already active (e.g. a single physical mouse: downs and ups
alternate). -/
def noRedundantDownB (es : List MEvent) : Bool :=
  (mouseTrace false es).all (fun st => !(st.pre && isCtrlDown st.ev))

/-- Printed lines strictly alternate `DOWN`, `UP`, `DOWN`, … given the
session state expected next. -/
def altFromB : Bool → List MOut → Bool
  | _, [] => true
  | false, o :: rest => isDownO o && altFromB true rest
  | true, o :: rest => !isDownO o && altFromB false rest

/-! ## window_info.cpp : data model -/

/-- A `RECT` in screen coordinates. -/
structure Rect where
  left : Int
  top : Int
  right : Int
  bottom : Int
deriving DecidableEq, Repr

/-- A `POINT` in screen coordinates. -/
structure Point where
  x : Int
  y : Int
deriving DecidableEq, Repr

/-- The Win32 surface `window_info.cpp` queries.  Window handles are
natural numbers.  `zorder` is the handle sequence visited by
`GetTopWindow(NULL)` / `GetWindow(_, GW_HWNDNEXT)`, front-to-back.
`rectOf` is `GetWindowRect` (`none` = the call fails), `pidOf` is
`GetWindowThreadProcessId`, `windowFromPoint` is `WindowFromPoint`
(`none` = `NULL`), `rootOf` is `GetAncestor(_, GA_ROOT)`, `titleOf` is
`GetWindowTextA`, `procImage` maps a pid to the
`QueryFullProcessImageNameA` result (`""` = the query fails).
`printWindow h f` is `PrintWindow(h, _, f)`, `codecs` the installed
GDI+ encoder mime types, and `saveOk` the result of `Bitmap::Save`. -/
structure Env where
  zorder : List Nat
  visible : Nat → Bool
  rectOf : Nat → Option Rect
  pidOf : Nat → Nat
  windowFromPoint : Point → Option Nat
  rootOf : Nat → Option Nat
  titleOf : Nat → String
  procImage : Nat → String
  printWindow : Nat → Nat → Bool
  codecs : List String
  saveOk : Bool

/-! ## window_info.cpp : helpers (`escapeJson`, `isPidExcluded`) -/

/-- One character of `escapeJson`: quote, backslash, newline, carriage
return and tab are escaped; every other character is copied verbatim. -/
def escapeChar (c : Char) : String :=
  if c = '"' then "\\\""
  else if c = '\\' then "\\\\"
  else if c = '\n' then "\\n"
  else if c = '\r' then "\\r"
  else if c = '\t' then "\\t"
  else String.singleton c

/-- `escapeJson` from `window_info.cpp`. -/
def escapeJson (s : String) : String :=
  String.join (s.toList.map escapeChar)

/-- `isPidExcluded`: linear scan of the exclusion vector. -/
def isPidExcluded (pid : Nat) : List Nat → Bool
  | [] => false
  | v :: rest => if v = pid then true else isPidExcluded pid rest

/-! ## window_info.cpp : `parseExcludePidsArg` -/

/-- `strncmp`-style prefix test: `some rest` when the pattern is a
prefix, returning the remainder. -/
def dropPre : List Char → List Char → Option (List Char)
  | [], s => some s
  | _, [] => none
  | p :: ps, c :: cs => if p = c then dropPre ps cs else none

/-- `isspace` in the C locale, as consumed by `strtoul`. -/
def isSpaceC (c : Char) : Bool :=
  c = ' ' || c = '\t' || c = '\n' || c = Char.ofNat 11 || c = Char.ofNat 12 || c = '\r'

/-- The separators skipped at the head of each list entry. -/
def isSepC (c : Char) : Bool := c = ',' || c = ' '

def digitsVal : List Char → Nat → Nat
  | [], acc => acc
  | c :: rest, acc => digitsVal rest (acc * 10 + (c.toNat - '0'.toNat))

/-- `ULONG_MAX` on the 32-bit `unsigned long` of the Windows targets. -/
def ulongMax : Nat := 2 ^ 32 - 1

/-- The optional sign consumed by `strtoul` after its whitespace skip. -/
def dropSign : List Char → List Char
  | '-' :: rest => rest
  | '+' :: rest => rest
  | cs => cs

/-- Whether `strtoul` saw a minus sign. -/
def sawMinus : List Char → Bool
  | '-' :: _ => true
  | _ => false

/-- `strtoul(p, &end, 10)`: skip whitespace and an optional sign, consume
digits; `none` when no digits are consumed (`end == p`), otherwise the
converted value (clamped to `ULONG_MAX` on overflow, negated modulo
`2^32` after a minus sign) and the rest of the string. -/
def strtoul10 (cs : List Char) : Option (Nat × List Char) :=
  let afterSign := dropSign (cs.dropWhile isSpaceC)
  let ds := afterSign.takeWhile Char.isDigit
  if ds.isEmpty then none
  else
    let v := digitsVal ds 0
    let value :=
      if v > ulongMax then ulongMax
      else if sawMinus (cs.dropWhile isSpaceC) then (2 ^ 32 - v) % 2 ^ 32
      else v
    some (value, afterSign.dropWhile Char.isDigit)

/-- The body of the `while (*p)` loop of `parseExcludePidsArg`: skip
commas and spaces, stop on end of string, `strtoul` the entry (stop when
it converts nothing, i.e. `end == p`), keep the value when positive, then
skip up to the next comma.  `fuel` only bounds the iteration count; every
iteration consumes at least one character, so the wrapper's
`cs.length + 1` never runs out (`parsePidsGoF_congr` below shows the
result does not depend on the fuel once it exceeds the length). -/
def parsePidsGoF : Nat → List Char → List Nat
  | 0, _ => []
  | fuel + 1, cs =>
    let p := cs.dropWhile isSepC
    if p.isEmpty then []
    else
      match strtoul10 p with
      | none => []
      | some (pid, e) =>
        let rest := e.dropWhile (fun c => c != ',')
        if pid > 0 then pid :: parsePidsGoF fuel rest
        else parsePidsGoF fuel rest

/-- The list-parsing loop of `parseExcludePidsArg`. -/
def parsePidsGo (cs : List Char) : List Nat := parsePidsGoF (cs.length + 1) cs

/-- `parseExcludePidsArg`: do nothing unless the argument starts with
`--exclude-pids=`, else append the parsed entries to the vector. -/
def parseExcludePidsArg (arg : List Char) (excluded : List Nat) : List Nat :=
  match dropPre "--exclude-pids=".toList arg with
  | none => excluded
  | some p => excluded ++ parsePidsGo p

/-! ## window_info.cpp : `findTopLevelWindowAtPoint` and the fallback -/

/-- The loop body of `findTopLevelWindowAtPoint`, over the remaining
z-order handle list; each `continue` of the C loop is a recursive call. -/
def findGo (env : Env) (pt : Point) (excl : List Nat) : List Nat → Option Nat
  | [] => none
  | h :: rest =>
    if env.visible h = false then findGo env pt excl rest
    else
      match env.rectOf h with
      | none => findGo env pt excl rest
      | some r =>
        if r.right ≤ r.left ∨ r.bottom ≤ r.top then findGo env pt excl rest
        else if pt.x < r.left ∨ pt.x ≥ r.right ∨ pt.y < r.top ∨ pt.y ≥ r.bottom then
          findGo env pt excl rest
        else if isPidExcluded (env.pidOf h) excl then findGo env pt excl rest
        else some h

/-- `findTopLevelWindowAtPoint` from `window_info.cpp`. -/
def findTopLevelWindowAtPoint (env : Env) (pt : Point) (excl : List Nat) : Option Nat :=
  findGo env pt excl env.zorder

/-- The half-open point-in-rectangle test the enumeration applies
(negation of the skip condition on line 105). -/
def containsPt (r : Rect) (pt : Point) : Bool :=
  !(decide (pt.x < r.left) || decide (pt.x ≥ r.right) ||
    decide (pt.y < r.top) || decide (pt.y ≥ r.bottom))

/-- All four skip conditions of the enumeration loop, as one predicate:
visible, rectangle obtainable and non-degenerate, point contained,
owning pid not excluded. -/
def candidateB (env : Env) (pt : Point) (excl : List Nat) (h : Nat) : Bool :=
  env.visible h &&
    (match env.rectOf h with
     | none => false
     | some r =>
       decide (r.left < r.right) && decide (r.top < r.bottom) &&
         containsPt r pt && !isPidExcluded (env.pidOf h) excl)

/-- Lines 217–235 of `main`: enumeration first; if it finds nothing,
`WindowFromPoint`, promoted to its `GA_ROOT` ancestor when there is one,
and rejected if the ancestor's owning process is excluded. -/
def resolveWindow (env : Env) (pt : Point) (excl : List Nat) : Option Nat :=
  match findTopLevelWindowAtPoint env pt excl with
  | some h => some h
  | none =>
    match env.windowFromPoint pt with
    | none => none
    | some h0 =>
      let h := (env.rootOf h0).getD h0
      if isPidExcluded (env.pidOf h) excl then none else some h

/-! ## window_info.cpp : attribute extraction and the output record -/

/-- The scan on lines 271–277: `exeName` is moved past each path
separator, so the result is the suffix after the last `\` or `/`. -/
def scanExeName (best : List Char) : List Char → List Char
  | [] => best
  | c :: rest =>
    if c = '\\' ∨ c = '/' then scanExeName rest rest
    else scanExeName best rest

/-- Executable base name of a full process image path. -/
def exeBaseName (s : String) : String :=
  String.mk (scanExeName s.toList s.toList)

/-- The fields printed by `main`'s success line. -/
structure WindowDescriptor where
  title : String
  exe : String
  pid : Nat
  bounds : Rect
deriving DecidableEq, Repr

/-- Lines 247–280 of `main`: title, bounds (`GetWindowRect` failure
leaves the zero-initialized `RECT`), pid, and the process image name
(empty when the pid is 0 or the query fails). -/
def describeWindow (env : Env) (h : Nat) : WindowDescriptor :=
  let rect := (env.rectOf h).getD ⟨0, 0, 0, 0⟩
  let pid := env.pidOf h
  let pname := if pid = 0 then "" else env.procImage pid
  ⟨env.titleOf h, exeBaseName pname, pid, rect⟩

/-- Resolution followed by the `GA_ROOT` normalization on lines 244–245
and attribute extraction. -/
def resolveDescriptor (env : Env) (pt : Point) (excl : List Nat) :
    Option WindowDescriptor :=
  (resolveWindow env pt excl).map (fun h0 => describeWindow env ((env.rootOf h0).getD h0))

/-- The success line printed by `main` (line 282). -/
def jsonLine (d : WindowDescriptor) : String :=
  "\x7b\"title\":\"" ++ escapeJson d.title ++
    "\",\"process\":\"" ++ escapeJson d.exe ++
    "\",\"pid\":" ++ toString d.pid ++
    ",\"bounds\":\x7b\"x\":" ++ toString d.bounds.left ++
    ",\"y\":" ++ toString d.bounds.top ++
    ",\"width\":" ++ toString (d.bounds.right - d.bounds.left) ++
    ",\"height\":" ++ toString (d.bounds.bottom - d.bounds.top) ++ "\x7d\x7d"

/-- The stdout lines and exit status of `main` after argument parsing
(lines 209–300).  Screenshot capture writes nothing to stdout and its
result is discarded, so it does not affect either component. -/
def mainRun (env : Env) (pt : Point) (excl : List Nat) : List String × Nat :=
  match resolveDescriptor env pt excl with
  | none => (["\x7b\"error\":\"no window at point\"\x7d"], 0)
  | some d => ([jsonLine d], 0)

/-! ## window_info.cpp : `GetPngEncoderClsid` and `captureWindowToFile` -/

/-- The search loop of `GetPngEncoderClsid`: index of the first
`image/png` codec, `-1` when none (or when the codec list is empty). -/
def findPngIndex : List String → Nat → Int
  | [], _ => -1
  | m :: rest, i => if m = "image/png" then Int.ofNat i else findPngIndex rest (i + 1)

/-- `GetPngEncoderClsid` from `window_info.cpp`. -/
def getPngEncoderClsid (codecs : List String) : Int :=
  if codecs.length = 0 then -1 else findPngIndex codecs 0

/-- `captureWindowToFile`: fail on a degenerate rectangle; render with
`PW_RENDERFULLCONTENT`, retrying once in baseline mode; then locate a
PNG encoder and save.  `saved` stays false unless every stage succeeds. -/
def captureWindowToFile (env : Env) (h : Nat) : Bool :=
  let rect := (env.rectOf h).getD ⟨0, 0, 0, 0⟩
  let w := rect.right - rect.left
  let ht := rect.bottom - rect.top
  if w ≤ 0 ∨ ht ≤ 0 then false
  else
    let ok := if env.printWindow h 2 then true else env.printWindow h 0
    if ok then
      if 0 ≤ getPngEncoderClsid env.codecs then env.saveOk else false
    else false

/-! ## Spec-side model of the exclusion-list grammar -/

/-- Tokenizer following the spec's words: the argument value is a
comma-or-space-separated list, so split on every `,` and ` `. -/
def splitTokensGo (cur : List Char) : List Char → List (List Char)
  | [] => [cur.reverse]
  | c :: rest =>
    if c = ',' ∨ c = ' ' then cur.reverse :: splitTokensGo [] rest
    else splitTokensGo (c :: cur) rest

/-- The non-empty comma-or-space-separated tokens of a string. -/
def splitTokens (cs : List Char) : List (List Char) :=
  (splitTokensGo [] cs).filter (fun t => !t.isEmpty)

/-- Modelled from the spec (§6): parsing of a comma-or-space-separated
list of unsigned integers that "stops at the first token that contains
no leading digit" and in which "zero-valued or unparsable entries are
silently dropped": keep the tokens up to the first one not starting
with a digit, read each one's leading digits, drop zero values. -/
def specParseExcludePids (cs : List Char) : List Nat :=
  ((splitTokens cs).takeWhile
      (fun t => match t with
        | [] => false
        | c :: _ => c.isDigit)).map
    (fun t => digitsVal (t.takeWhile Char.isDigit) 0)
  |>.filter (fun v => v ≠ 0)


/-! ## Concrete environments used by witnesses and counterexamples -/

/-- Two fully overlapping visible top-level windows owned by distinct
processes: handle 10 (front, pid 1) and handle 20 (back, pid 2). -/
def env1 : Env where
  zorder := [10, 20]
  visible := fun _ => true
  rectOf := fun h =>
    if h = 10 then some ⟨0, 0, 100, 100⟩
    else if h = 20 then some ⟨0, 0, 200, 200⟩
    else none
  pidOf := fun h => if h = 10 then 1 else 2
  windowFromPoint := fun _ => none
  rootOf := fun h => some h
  titleOf := fun _ => "w"
  procImage := fun _ => "C:\\app\\a.exe"
  printWindow := fun _ _ => true
  codecs := ["image/png"]
  saveOk := true

/-- A desktop with no enumerable window and a hit test that finds
nothing; every platform query fails. -/
def envNone : Env where
  zorder := []
  visible := fun _ => false
  rectOf := fun _ => none
  pidOf := fun _ => 0
  windowFromPoint := fun _ => none
  rootOf := fun _ => none
  titleOf := fun _ => ""
  procImage := fun _ => ""
  printWindow := fun _ _ => false
  codecs := []
  saveOk := false

/-- A desktop where only the `WindowFromPoint` fallback finds a window:
the hit window 30 has top-level ancestor 31, owned by pid 9. -/
def envFB : Env where
  zorder := []
  visible := fun _ => false
  rectOf := fun _ => none
  pidOf := fun h => if h = 31 then 9 else 0
  windowFromPoint := fun _ => some 30
  rootOf := fun h => if h = 30 then some 31 else none
  titleOf := fun _ => ""
  procImage := fun _ => ""
  printWindow := fun _ _ => false
  codecs := []
  saveOk := false

/-! ## Helper lemmas -/


theorem length_dropWhile_le (p : Char → Bool) (l : List Char) :
    (l.dropWhile p).length ≤ l.length := by
  induction l with
  | nil => simp [List.dropWhile]
  | cons c rest ih =>
    by_cases h : p c
    · simp [List.dropWhile, h]; omega
    · simp [List.dropWhile, h]

theorem length_dropSign_le (l : List Char) : (dropSign l).length ≤ l.length := by
  unfold dropSign
  split <;> simp

theorem dropWhile_lt_of_head_taken {p : Char → Bool} {l : List Char}
    (h : (l.takeWhile p).isEmpty = false) : (l.dropWhile p).length < l.length := by
  rcases l with _ | ⟨c, rest⟩
  · simp [List.takeWhile] at h
  · by_cases hc : p c
    · have : (c :: rest).dropWhile p = rest.dropWhile p := by
        simp [List.dropWhile, hc]
      rw [this]
      have := length_dropWhile_le p rest
      simp only [List.length_cons]
      omega
    · simp [List.takeWhile, hc] at h

theorem strtoul10_rest_lt {cs : List Char} {v : Nat} {e : List Char}
    (h : strtoul10 cs = some (v, e)) : e.length < cs.length := by
  unfold strtoul10 at h
  by_cases hds :
      ((dropSign (cs.dropWhile isSpaceC)).takeWhile Char.isDigit).isEmpty = true
  · simp only [hds, if_true] at h
    exact absurd h (by simp)
  · simp only [hds, if_false] at h
    have he : e = (dropSign (cs.dropWhile isSpaceC)).dropWhile Char.isDigit := by
      simpa using congrArg (fun o => o.map Prod.snd) h.symm
    have h1 : ((dropSign (cs.dropWhile isSpaceC)).dropWhile Char.isDigit).length <
        (dropSign (cs.dropWhile isSpaceC)).length :=
      dropWhile_lt_of_head_taken (by simpa using hds)
    have h2 := length_dropSign_le (cs.dropWhile isSpaceC)
    have h3 := length_dropWhile_le isSpaceC cs
    rw [he]
    omega


theorem parsePidsGoF_congr :
    ∀ f1 f2 cs, cs.length < f1 → cs.length < f2 →
      parsePidsGoF f1 cs = parsePidsGoF f2 cs := by
  intro f1
  induction f1 with
  | zero => intro f2 cs h1 _; omega
  | succ f ih =>
    intro f2 cs h1 h2
    rcases f2 with _ | g
    · omega
    · simp only [parsePidsGoF]
      by_cases hp : (cs.dropWhile isSepC).isEmpty
      · simp [hp]
      · simp only [hp, Bool.false_eq_true, if_false]
        rcases hs : strtoul10 (cs.dropWhile isSepC) with _ | ⟨pid, e⟩
        · rfl
        · have hlt := strtoul10_rest_lt hs
          have hd := length_dropWhile_le (fun c => c != ',') e
          have hp2 := length_dropWhile_le isSepC cs
          have heq : parsePidsGoF f (e.dropWhile (fun c => c != ',')) =
              parsePidsGoF g (e.dropWhile (fun c => c != ',')) :=
            ih g _ (by omega) (by omega)
          by_cases hpid : pid > 0 <;> simp [hpid, heq]


/-! ## Helper lemmas: the enumeration loop is a first-match search -/

theorem findGo_eq_find? (env : Env) (pt : Point) (excl : List Nat) :
    ∀ l : List Nat, findGo env pt excl l = l.find? (candidateB env pt excl) := by
  intro l
  induction l with
  | nil => rfl
  | cons h rest ih =>
    simp only [findGo, List.find?_cons]
    by_cases hv : env.visible h = false
    · have hc : candidateB env pt excl h = false := by simp [candidateB, hv]
      simp [hv, hc, ih]
    · have hv' : env.visible h = true := by revert hv; cases env.visible h <;> simp
      rcases hr : env.rectOf h with _ | r
    
      · have hc : candidateB env pt excl h = false := by simp [candidateB, hr]
        simp [hv', hr, hc, ih]
      · by_cases hdeg : r.right ≤ r.left ∨ r.bottom ≤ r.top
        · have hc : candidateB env pt excl h = false := by
            apply Bool.eq_false_iff.mpr
            intro hcontra
            simp only [candidateB, hv', hr, containsPt, Bool.true_and, Bool.and_eq_true,
              decide_eq_true_eq, Bool.not_eq_true, Bool.not_eq_true', Bool.or_eq_false_iff,
              decide_eq_false_iff_not] at hcontra
            omega
          simp [hv', hr, hdeg, hc, ih]
        · by_cases hout : pt.x < r.left ∨ pt.x ≥ r.right ∨ pt.y < r.top ∨ pt.y ≥ r.bottom
          · have hc : candidateB env pt excl h = false := by
              apply Bool.eq_false_iff.mpr
              intro hcontra
              simp only [candidateB, hv', hr, containsPt, Bool.true_and, Bool.and_eq_true,
                decide_eq_true_eq, Bool.not_eq_true, Bool.not_eq_true', Bool.or_eq_false_iff,
                decide_eq_false_iff_not] at hcontra
              omega
            simp [hv', hr, hdeg, hout, hc, ih]
          · rcases hex : isPidExcluded (env.pidOf h) excl with _ | _
            · have hc : candidateB env pt excl h = true := by
                simp only [candidateB, hv', hr, containsPt, hex, Bool.true_and,
                  Bool.not_false, Bool.and_true, Bool.and_eq_true, decide_eq_true_eq,
                  Bool.not_eq_true, Bool.not_eq_true', Bool.or_eq_false_iff, decide_eq_false_iff_not]
                omega
              simp [hv', hr, hdeg, hout, hex, hc]
            · have hc : candidateB env pt excl h = false := by
                simp [candidateB, hv', hr, hex]
              simp [hv', hr, hdeg, hout, hex, hc, ih]

theorem find?_append_of_forall_false {p : Nat → Bool} {l1 l2 : List Nat}
    (h : ∀ x ∈ l1, p x = false) : (l1 ++ l2).find? p = l2.find? p := by
  induction l1 with
  | nil => rfl
  | cons a l1 ih =>
    have ha : p a = false := h a (List.mem_cons_self a l1)
    simp only [List.cons_append, List.find?_cons, ha]
    exact ih (fun x hx => h x (List.mem_cons_of_mem a hx))

theorem findGo_some_candidate {env : Env} {pt : Point} {excl : List Nat}
    {l : List Nat} {h : Nat} (hf : findGo env pt excl l = some h) :
    candidateB env pt excl h = true := by
  rw [findGo_eq_find?] at hf
  exact List.find?_some hf

theorem candidateB_spec {env : Env} {pt : Point} {excl : List Nat} {h : Nat}
    (hc : candidateB env pt excl h = true) :
    env.visible h = true ∧
      ∃ r, env.rectOf h = some r ∧ r.left < r.right ∧ r.top < r.bottom ∧
        containsPt r pt = true ∧ isPidExcluded (env.pidOf h) excl = false := by
  simp only [candidateB, Bool.and_eq_true] at hc
  obtain ⟨hv, hrest⟩ := hc
  rcases hr : env.rectOf h with _ | r
  · rw [hr] at hrest; simp at hrest
  · rw [hr] at hrest
    simp only [Bool.and_eq_true, decide_eq_true_eq, Bool.not_eq_true'] at hrest
    exact ⟨hv, r, rfl, hrest.1.1.1, hrest.1.1.2, hrest.1.2, hrest.2⟩

theorem resolveWindow_not_excluded {env : Env} {pt : Point} {excl : List Nat}
    {h : Nat} (hres : resolveWindow env pt excl = some h) :
    isPidExcluded (env.pidOf h) excl = false := by
  unfold resolveWindow at hres
  rcases hf : findTopLevelWindowAtPoint env pt excl with _ | h1
  · rw [hf] at hres
    rcases hw : env.windowFromPoint pt with _ | h0
    · rw [hw] at hres; simp at hres
    · rw [hw] at hres
      simp only at hres
      by_cases hx : isPidExcluded (env.pidOf ((env.rootOf h0).getD h0)) excl = true
      · rw [if_pos hx] at hres; simp at hres
      · rw [if_neg hx] at hres
        simp only [Option.some.injEq] at hres
        subst hres
        revert hx
        cases isPidExcluded (env.pidOf ((env.rootOf h0).getD h0)) excl <;> simp
  · rw [hf] at hres
    simp only [Option.some.injEq] at hres
    subst hres
    exact (candidateB_spec (findGo_some_candidate hf)).2.choose_spec.2.2.2.2


/-! ## Helper lemmas: the hook state machine -/

theorem mouseTrace_correct (es : List MEvent) :
    ∀ s : Bool,
      (mouseTrace s es).all (fun st => !(st.pre && isCtrlDown st.ev)) = true →
      ((mouseTrace s es).all
          (fun st => isDownOut st.out == (!st.pre && st.post)) = true ∧
        altFromB s (mouseOutputs s es) = true) := by
  induction es with
  | nil =>
    intro s _
    refine ⟨rfl, ?_⟩
    cases s <;> rfl
  | cons e es ih =>
    intro s hyp
    simp only [mouseTrace, List.all_cons, Bool.and_eq_true] at hyp
    obtain ⟨hhead, htail⟩ := hyp
    rcases e with ⟨ctrl, x, y⟩ | ⟨ctrl, x, y⟩ | _
    · rcases hctrl : ctrl with _ | _
      · subst hctrl
        have := ih s htail
        simp only [mouseTrace, mouseStep, mouseOutputs, List.all_cons] at *
        rcases s with _ | _ <;> simp_all [isDownOut, isCtrlDown]
      · subst hctrl
        have hs : s = false := by
          simp [isCtrlDown] at hhead
          exact hhead
        subst hs
        have := ih true (by simpa [mouseStep] using htail)
        simp only [mouseTrace, mouseStep, mouseOutputs, List.all_cons] at *
        simp_all [isDownOut, isDownO, altFromB]
    · rcases s with _ | _
      · have := ih false (by simpa [mouseStep] using htail)
        simp only [mouseTrace, mouseStep, mouseOutputs, List.all_cons] at *
        simp_all [isDownOut]
      · have := ih false (by simpa [mouseStep] using htail)
        simp only [mouseTrace, mouseStep, mouseOutputs, List.all_cons] at *
        simp_all [isDownOut, isDownO, altFromB]
    · have := ih s htail
      simp only [mouseTrace, mouseStep, mouseOutputs, List.all_cons] at *
      rcases s with _ | _ <;> simp_all [isDownOut]

theorem find?_mem_prefix {p : Nat → Bool} {l1 l2 : List Nat} {h1 a : Nat}
    (hp : p h1 = true) (hf : (l1 ++ h1 :: l2).find? p = some a) :
    a ∈ l1 ∨ a = h1 := by
  induction l1 with
  | nil =>
    simp only [List.nil_append, List.find?_cons, hp] at hf
    right
    exact (Option.some.injEq _ _ ▸ hf).symm
  | cons b l1 ih =>
    simp only [List.cons_append, List.find?_cons] at hf
    rcases hb : p b with _ | _
    · rw [hb] at hf
      rcases ih hf with hmem | heq
      · exact Or.inl (List.mem_cons_of_mem b hmem)
      · exact Or.inr heq
    · rw [hb] at hf
      simp only [Option.some.injEq] at hf
      exact Or.inl (hf ▸ List.mem_cons_self b l1)

/-! ## The claims -/

/-- C1, counterexample: after two consecutive Ctrl-held right-button-downs
(possible with injected events or a second pointing device), the hook
prints `DOWN` twice: the second `DOWN` is emitted on an `Active → Active`
step, with no `UP` closing the first session, so "`DOWN` iff
`Inactive → Active`" and "every `Active` session is closed by exactly one
`UP` before another `DOWN`" both fail on this input. -/
theorem mouse_down_iff_activation_cex :
    downIffActivationB [.rdown true 0 0, .rdown true 0 0] = false ∧
    mouseOutputs false [.rdown true 0 0, .rdown true 0 0] =
      [.down 0 0, .down 0 0] ∧
    (mouseTrace false [.rdown true 0 0, .rdown true 0 0]).map
        (fun st => (st.pre, st.post)) = [(false, true), (true, true)] := by
  decide

/-- C1, amended: for every sequence in which no Ctrl-held
right-button-down is processed while a session is already active (any
strict press/release alternation of one mouse in particular), `DOWN` is
emitted at a step iff that step transitions `Inactive → Active`, and the
emitted events strictly alternate `DOWN`, `UP`, `DOWN`, …, so every
active session is closed by exactly one `UP` before another `DOWN`. -/
theorem mouse_session_alternation (es : List MEvent)
    (hnr : noRedundantDownB es = true) :
    downIffActivationB es = true ∧ altFromB false (mouseOutputs false es) = true :=
  mouseTrace_correct es false hnr

theorem mouse_session_alternation_witness :
    noRedundantDownB [.rdown true 1 2, .rup false 3 4] = true ∧
    (downIffActivationB [.rdown true 1 2, .rup false 3 4] = true ∧
      altFromB false (mouseOutputs false [.rdown true 1 2, .rup false 3 4]) = true) :=
  ⟨by decide, mouse_session_alternation [.rdown true 1 2, .rup false 3 4] (by decide)⟩

/-- C5: an `UP` line is never printed from the `Inactive` state, and a
right-button-up processed while `Active` always clears the session and
prints `UP`, whatever the modifier state `c` is at that moment. -/
theorem up_only_while_active :
    (∀ e : MEvent, isUpOut (mouseStep false e).out = false) ∧
    (∀ (c : Bool) (x y : Int),
      mouseStep true (.rup c x y) = ⟨false, some (.up x y), true⟩) := by
  constructor
  · intro e
    cases e with
    | rdown ctrl x y => cases ctrl <;> simp [mouseStep, isUpOut]
    | rup ctrl x y => simp [mouseStep, isUpOut]
    | other => simp [mouseStep, isUpOut]
  · intro c x y
    rfl

/-- C2: the enumeration is exactly a first-match search over the z-order
with the four skip conditions (visible, obtainable non-degenerate
rectangle, half-open containment, pid not excluded); a window behind an
earlier candidate is never returned; and whatever is returned satisfies
all four conditions, so a degenerate-rectangle window is never returned. -/
theorem enum_returns_first_candidate :
    (∀ (env : Env) (pt : Point) (excl : List Nat),
      findTopLevelWindowAtPoint env pt excl =
        env.zorder.find? (candidateB env pt excl)) ∧
    (∀ (env : Env) (pt : Point) (excl : List Nat) (l1 : List Nat) (h1 : Nat)
        (l2 : List Nat) (h2 : Nat),
      env.zorder = l1 ++ h1 :: l2 → candidateB env pt excl h1 = true →
      h2 ∈ l2 → h2 ∉ l1 → h2 ≠ h1 →
      findTopLevelWindowAtPoint env pt excl ≠ some h2) ∧
    (∀ (env : Env) (pt : Point) (excl : List Nat) (h : Nat),
      findTopLevelWindowAtPoint env pt excl = some h →
      env.visible h = true ∧
        ∃ r, env.rectOf h = some r ∧ r.left < r.right ∧ r.top < r.bottom ∧
          containsPt r pt = true ∧ isPidExcluded (env.pidOf h) excl = false) := by
  refine ⟨fun env pt excl => findGo_eq_find? env pt excl env.zorder, ?_, ?_⟩
  · intro env pt excl l1 h1 l2 h2 hz hc hmem hnotmem hne hfind
    rw [findTopLevelWindowAtPoint, findGo_eq_find?, hz] at hfind
    rcases find?_mem_prefix hc hfind with hmem1 | heq
    · exact hnotmem hmem1
    · exact hne heq
  · intro env pt excl h hf
    exact candidateB_spec (findGo_some_candidate hf)

theorem enum_returns_first_candidate_witness :
    (findTopLevelWindowAtPoint env1 ⟨5, 5⟩ [] =
      env1.zorder.find? (candidateB env1 ⟨5, 5⟩ [])) ∧
    findTopLevelWindowAtPoint env1 ⟨5, 5⟩ [] ≠ some 20 ∧
    (env1.visible 10 = true ∧
      ∃ r, env1.rectOf 10 = some r ∧ r.left < r.right ∧ r.top < r.bottom ∧
        containsPt r ⟨5, 5⟩ = true ∧ isPidExcluded (env1.pidOf 10) [] = false) :=
  ⟨enum_returns_first_candidate.1 env1 ⟨5, 5⟩ [],
   enum_returns_first_candidate.2.1 env1 ⟨5, 5⟩ [] [] 10 [20] 20 rfl
     (by decide) (by decide) (by decide) (by decide),
   enum_returns_first_candidate.2.2 env1 ⟨5, 5⟩ [] 10 (by decide)⟩

/-- C3: a window whose owning pid is in the exclusion set is never
resolved, neither by the z-order enumeration (which checks the pid of
each candidate) nor by the `WindowFromPoint` fallback (which checks the
pid of the hit window's `GA_ROOT` ancestor). -/
theorem resolver_never_returns_excluded (env : Env) (pt : Point)
    (excl : List Nat) (h : Nat) (hres : resolveWindow env pt excl = some h) :
    isPidExcluded (env.pidOf h) excl = false :=
  resolveWindow_not_excluded hres

theorem resolver_never_returns_excluded_witness :
    resolveWindow env1 ⟨5, 5⟩ [1] = some 20 ∧
    isPidExcluded (env1.pidOf 20) [1] = false ∧
    resolveWindow envFB ⟨0, 0⟩ [5] = some 31 ∧
    isPidExcluded (envFB.pidOf 31) [5] = false ∧
    resolveWindow envFB ⟨0, 0⟩ [9] = none :=
  ⟨by decide,
   resolver_never_returns_excluded env1 ⟨5, 5⟩ [1] 20 (by decide),
   by decide,
   resolver_never_returns_excluded envFB ⟨0, 0⟩ [5] 31 (by decide),
   by decide⟩

/-- C6, counterexample: handle 20 in `env1` is a known, visible,
unexcluded window and `(5,5)` is strictly inside its bounds, yet
resolution reports pid 1 — the pid of the overlapping window in front —
not window 20's own pid 2. -/
theorem roundtrip_occlusion_cex :
    env1.visible 20 = true ∧
    env1.rectOf 20 = some ⟨0, 0, 200, 200⟩ ∧
    isPidExcluded (env1.pidOf 20) [] = false ∧
    (resolveDescriptor env1 ⟨5, 5⟩ []).map (fun d => d.pid) = some 1 ∧
    env1.pidOf 20 = 2 := by
  decide

/-- C6, amended: for every point strictly inside the bounds of a known,
unexcluded, visible window that is frontmost at that point (no window
earlier in the z-order passes the skip conditions there) and is its own
top-level root, resolution returns that window's descriptor: its own pid
and a bounds rectangle containing the point. -/
theorem roundtrip_frontmost (env : Env) (pt : Point) (excl : List Nat)
    (l1 : List Nat) (h : Nat) (l2 : List Nat) (r : Rect)
    (hz : env.zorder = l1 ++ h :: l2)
    (hfront : ∀ h' ∈ l1, candidateB env pt excl h' = false)
    (hvis : env.visible h = true)
    (hrect : env.rectOf h = some r)
    (hx1 : r.left < pt.x) (hx2 : pt.x < r.right)
    (hy1 : r.top < pt.y) (hy2 : pt.y < r.bottom)
    (hexcl : isPidExcluded (env.pidOf h) excl = false)
    (hroot : env.rootOf h = some h) :
    resolveDescriptor env pt excl = some (describeWindow env h) ∧
    (describeWindow env h).pid = env.pidOf h ∧
    (describeWindow env h).bounds = r ∧
    containsPt r pt = true := by
  have hc : candidateB env pt excl h = true := by
    simp only [candidateB, hvis, hrect, containsPt, hexcl, Bool.true_and,
      Bool.not_false, Bool.and_true, Bool.and_eq_true, decide_eq_true_eq,
      Bool.not_eq_true, Bool.not_eq_true', Bool.or_eq_false_iff,
      decide_eq_false_iff_not]
    omega
  have hfind : findTopLevelWindowAtPoint env pt excl = some h := by
    rw [findTopLevelWindowAtPoint, findGo_eq_find?, hz,
      find?_append_of_forall_false hfront]
    simp [List.find?_cons, hc]
  have hres : resolveWindow env pt excl = some h := by
    rw [resolveWindow, hfind]
  refine ⟨?_, rfl, ?_, ?_⟩
  · simp [resolveDescriptor, hres, hroot]
  · simp [describeWindow, hrect]
  · simp only [containsPt, Bool.not_eq_true', Bool.or_eq_false_iff,
      decide_eq_false_iff_not]
    omega

theorem roundtrip_frontmost_witness :
    resolveDescriptor env1 ⟨5, 5⟩ [] = some (describeWindow env1 10) ∧
    (describeWindow env1 10).pid = env1.pidOf 10 ∧
    (describeWindow env1 10).bounds = ⟨0, 0, 100, 100⟩ ∧
    containsPt ⟨0, 0, 100, 100⟩ ⟨5, 5⟩ = true :=
  roundtrip_frontmost env1 ⟨5, 5⟩ [] [] 10 [20] ⟨0, 0, 100, 100⟩ rfl
    (by decide) (by decide) (by decide) (by decide) (by decide) (by decide)
    (by decide) (by decide) (by decide)

/-- C7: whenever neither the enumeration nor the fallback finds a window,
the program prints exactly the one line with the structured error and
exits with status 0. -/
theorem no_window_error_output (env : Env) (pt : Point) (excl : List Nat)
    (hres : resolveWindow env pt excl = none) :
    mainRun env pt excl = (["\x7b\"error\":\"no window at point\"\x7d"], 0) := by
  simp [mainRun, resolveDescriptor, hres]

theorem no_window_error_output_witness :
    resolveWindow envNone ⟨0, 0⟩ [] = none ∧
    mainRun envNone ⟨0, 0⟩ [] = (["\x7b\"error\":\"no window at point\"\x7d"], 0) :=
  ⟨by decide, no_window_error_output envNone ⟨0, 0⟩ [] (by decide)⟩

/-- C8: `escapeJson` copies every control character other than `\n`,
`\r`, `\t` to the output verbatim — here `U+0001` survives unescaped all
the way into the serialized output record — although quotes are indeed
escaped.  The claim (and §4.2/§6 of the spec, and the JSON format the
program's own header comment promises) requires every embedded control
character to be escaped, so the code, not the claim, is wrong here. -/
theorem escapeJson_control_char_passthrough :
    escapeJson (String.mk [Char.ofNat 1, 'a']) = String.mk [Char.ofNat 1, 'a'] ∧
    (Char.ofNat 1).toNat < 32 ∧
    (jsonLine ⟨String.mk [Char.ofNat 1], "a.exe", 7, ⟨0, 0, 10, 10⟩⟩).toList.contains
      (Char.ofNat 1) = true ∧
    escapeJson "\"" = "\\\"" := by
  decide

/-- C9: capture fails on a degenerate rectangle (`GetWindowRect` failure
degenerates to the zero rectangle), and succeeds exactly when the
rectangle is non-degenerate, `PrintWindow` succeeds in full-content mode
or on the baseline retry, a PNG encoder is installed, and the encoded
image is written; so any stage failing yields failure. -/
theorem capture_requires_all_stages (env : Env) (h : Nat) :
    (((env.rectOf h).getD ⟨0, 0, 0, 0⟩).right -
          ((env.rectOf h).getD ⟨0, 0, 0, 0⟩).left ≤ 0 ∨
        ((env.rectOf h).getD ⟨0, 0, 0, 0⟩).bottom -
          ((env.rectOf h).getD ⟨0, 0, 0, 0⟩).top ≤ 0 →
      captureWindowToFile env h = false) ∧
    (captureWindowToFile env h = true ↔
      (0 < ((env.rectOf h).getD ⟨0, 0, 0, 0⟩).right -
          ((env.rectOf h).getD ⟨0, 0, 0, 0⟩).left ∧
        0 < ((env.rectOf h).getD ⟨0, 0, 0, 0⟩).bottom -
          ((env.rectOf h).getD ⟨0, 0, 0, 0⟩).top ∧
        (env.printWindow h 2 = true ∨ env.printWindow h 0 = true) ∧
        0 ≤ getPngEncoderClsid env.codecs ∧ env.saveOk = true)) := by
  simp only [captureWindowToFile]
  by_cases hdeg :
      ((env.rectOf h).getD ⟨0, 0, 0, 0⟩).right -
          ((env.rectOf h).getD ⟨0, 0, 0, 0⟩).left ≤ 0 ∨
        ((env.rectOf h).getD ⟨0, 0, 0, 0⟩).bottom -
          ((env.rectOf h).getD ⟨0, 0, 0, 0⟩).top ≤ 0
  · rw [if_pos hdeg]
    refine ⟨fun _ => rfl, ?_⟩
    constructor
    · intro hfalse
      exact absurd hfalse (by simp)
    · rintro ⟨h1, h2, -⟩
      omega
  · rw [if_neg hdeg]
    push_neg at hdeg
    refine ⟨fun hcontra => absurd hcontra (by omega), ?_⟩
    cases hpw2 : env.printWindow h 2 <;> cases hpw0 : env.printWindow h 0 <;>
        by_cases henc : 0 ≤ getPngEncoderClsid env.codecs <;>
          cases hsave : env.saveOk <;>
          simp [hpw2, hpw0, henc, hsave] <;> omega

theorem capture_requires_all_stages_witness :
    captureWindowToFile envNone 5 = false ∧ captureWindowToFile env1 10 = true :=
  ⟨(capture_requires_all_stages envNone 5).1 (by decide),
   (capture_requires_all_stages env1 10).2.mpr (by decide)⟩

/-- C4, counterexample: `--exclude-pids=12 34` is a space-separated list
of unsigned integers in which no token lacks a leading digit, so under
the claim both entries are kept — the spec-side parser yields `[12, 34]`
— but the code, after parsing `12`, skips everything up to the next
comma, discarding `34`, and yields `[12]`. -/
theorem parse_exclude_pids_space_cex :
    parseExcludePidsArg "--exclude-pids=12 34".toList [] = [12] ∧
    specParseExcludePids "12 34".toList = [12, 34] := by
  decide

/-- C4, amended: entries are parsed after skipping commas and spaces, but
after each parsed entry everything up to the next comma is skipped, so
an entry separated from the previous one only by spaces is dropped
(`12 34` yields `{12}`); zero-valued entries are dropped; parsing stops
at the first entry from which `strtoul` can parse no digits; in
particular `--exclude-pids=12,abc,34` yields exactly `{12}`. -/
theorem parse_exclude_pids_amended :
    parseExcludePidsArg "--exclude-pids=12,abc,34".toList [] = [12] ∧
    parseExcludePidsArg "--exclude-pids=12,0,5".toList [] = [12, 5] ∧
    (∀ (fuel : Nat) (cs : List Char) (v : Nat), v ∈ parsePidsGoF fuel cs → 0 < v) ∧
    (∀ cs : List Char, strtoul10 (cs.dropWhile isSepC) = none →
      parsePidsGo cs = []) := by
  refine ⟨by decide, by decide, ?_, ?_⟩
  · intro fuel
    induction fuel with
    | zero =>
      intro cs v hv
      simp [parsePidsGoF] at hv
    | succ f ih =>
      intro cs v hv
      simp only [parsePidsGoF] at hv
      by_cases hp : (cs.dropWhile isSepC).isEmpty
      · rw [if_pos hp] at hv
        simp at hv
      · rw [if_neg hp] at hv
        rcases hs : strtoul10 (cs.dropWhile isSepC) with _ | ⟨pid, e⟩
        · rw [hs] at hv
          simp at hv
        · rw [hs] at hv
          simp only at hv
          by_cases hpid : pid > 0
          · rw [if_pos hpid] at hv
            rcases List.mem_cons.mp hv with rfl | hmem
            · exact hpid
            · exact ih _ _ hmem
          · rw [if_neg hpid] at hv
            exact ih _ _ hv
  · intro cs hnone
    simp only [parsePidsGo, parsePidsGoF]
    by_cases hp : (cs.dropWhile isSepC).isEmpty
    · rw [if_pos hp]
    · rw [if_neg hp, hnone]

theorem parse_exclude_pids_amended_witness :
    0 < 7 ∧ parsePidsGo "abc".toList = [] :=
  ⟨parse_exclude_pids_amended.2.2.1 5 "7".toList 7 (by decide),
   parse_exclude_pids_amended.2.2.2 "abc".toList (by decide)⟩

/-- C10: the containment test of the enumeration path is half-open — a
point on the left or top edge (other coordinate in range, rectangle
non-degenerate on that axis) is inside, a point on the right or bottom
edge is always outside — and any window the enumeration returns has the
query point strictly left of its right edge and strictly above its
bottom edge. -/
theorem halfopen_containment :
    (∀ (r : Rect) (y : Int), r.left < r.right → r.top ≤ y → y < r.bottom →
      containsPt r ⟨r.left, y⟩ = true) ∧
    (∀ (r : Rect) (x : Int), r.top < r.bottom → r.left ≤ x → x < r.right →
      containsPt r ⟨x, r.top⟩ = true) ∧
    (∀ (r : Rect) (y : Int), containsPt r ⟨r.right, y⟩ = false) ∧
    (∀ (r : Rect) (x : Int), containsPt r ⟨x, r.bottom⟩ = false) ∧
    (∀ (env : Env) (pt : Point) (excl : List Nat) (h : Nat) (r : Rect),
      findTopLevelWindowAtPoint env pt excl = some h → env.rectOf h = some r →
      pt.x < r.right ∧ pt.y < r.bottom) := by
  refine ⟨?_, ?_, ?_, ?_, ?_⟩
  · intro r y h1 h2 h3
    simp only [containsPt, Bool.not_eq_true', Bool.or_eq_false_iff,
      decide_eq_false_iff_not]
    omega
  · intro r x h1 h2 h3
    simp only [containsPt, Bool.not_eq_true', Bool.or_eq_false_iff,
      decide_eq_false_iff_not]
    omega
  · intro r y
    simp only [containsPt, Bool.not_eq_false', Bool.or_eq_true,
      decide_eq_true_eq]
    omega
  · intro r x
    simp only [containsPt, Bool.not_eq_false', Bool.or_eq_true,
      decide_eq_true_eq]
    omega
  · intro env pt excl h r hf hr
    obtain ⟨-, r', hr', -, -, hcont, -⟩ :=
      candidateB_spec (findGo_some_candidate hf)
    rw [hr] at hr'
    injection hr' with hrr
    subst hrr
    simp only [containsPt, Bool.not_eq_true', Bool.or_eq_false_iff,
      decide_eq_false_iff_not] at hcont
    omega

theorem halfopen_containment_witness :
    containsPt ⟨0, 0, 10, 10⟩ ⟨0, 5⟩ = true ∧
    containsPt ⟨0, 0, 10, 10⟩ ⟨5, 0⟩ = true ∧
    containsPt ⟨0, 0, 10, 10⟩ ⟨10, 5⟩ = false ∧
    containsPt ⟨0, 0, 10, 10⟩ ⟨5, 10⟩ = false ∧
    ((5 : Int) < 100 ∧ (5 : Int) < 100) :=
  ⟨halfopen_containment.1 ⟨0, 0, 10, 10⟩ 5 (by decide) (by decide) (by decide),
   halfopen_containment.2.1 ⟨0, 0, 10, 10⟩ 5 (by decide) (by decide) (by decide),
   halfopen_containment.2.2.1 ⟨0, 0, 10, 10⟩ 5,
   halfopen_containment.2.2.2.1 ⟨0, 0, 10, 10⟩ 5,
   halfopen_containment.2.2.2.2 env1 ⟨5, 5⟩ [] 10 ⟨0, 0, 100, 100⟩
     (by decide) (by decide)⟩
